import Mathlib

/-!
Verification of the table-driven tokenizer and LR shift-reduce parser of
`src/lab2/main.hpp` (language of `while (E relop E) id := E done` statements).

The embedding translates, from the source:
  * `TokenType`, `Token`, `isRomanChar`, `tokenize` (lines 13-131);
  * `ASTNode` (lines 134-140);
  * the `LRParser` tables, productions and `parse` driver loop (lines 143-457).

Strings are kept as Lean `String`; the input text is a `List Char`.  The
tokenizer and the parser driver are written with explicit fuel so that every
definition evaluates by kernel reduction; adequacy lemmas below show the fuel
used by the wrappers always suffices, so the wrappers compute exactly what the
C++ loops compute.
-/

/-- ASCII white-space test, the `std::isspace` of the source (C locale). -/
def isspace (c : Char) : Bool :=
  c = ' ' || c = '\t' || c = '\n' || c = '\r' || c = '\x0b' || c = '\x0c'

/-- ASCII letter test, the `std::isalpha` of the source (C locale). -/
def isalpha (c : Char) : Bool :=
  ('a' ≤ c && c ≤ 'z') || ('A' ≤ c && c ≤ 'Z')

/-- ASCII digit test, the `std::isdigit` of the source (C locale). -/
def isdigit (c : Char) : Bool :=
  '0' ≤ c && c ≤ '9'

/-- ASCII letter-or-digit test, the `std::isalnum` of the source. -/
def isalnum (c : Char) : Bool :=
  isalpha c || isdigit c

/-- `main.hpp` lines 13-27: the token kinds of the lexer. -/
inductive TokenType where
  | WHILE | DONE | SEMICOLON | LPAREN | RPAREN
  | IDENTIFIER | ROMAN_NUMERAL | ASSIGN | LESS | GREATER | EQUAL | END
  deriving DecidableEq, Repr

/-- `main.hpp` lines 30-35: one lexeme. -/
structure Token where
  type : TokenType
  value : String
  deriving DecidableEq, Repr

/-- `main.hpp` lines 38-41: is `c` one of the characters allowed in a Roman
numeral. -/
def isRomanChar (c : Char) : Bool :=
  c = 'I' || c = 'V' || c = 'X'

/-- `main.hpp` lines 110-118: the classification loop of the identifier
branch, `isRoman = !word.empty()` and the for loop clearing it on the first
non-Roman character. -/
def isRomanWord (w : List Char) : Bool :=
  !w.isEmpty && w.all isRomanChar

/-- `main.hpp` line 120: the token emitted for a maximal alphanumeric run. -/
def classifyRun (w : List Char) : Token :=
  { type := if isRomanWord w then .ROMAN_NUMERAL else .IDENTIFIER
    value := String.mk w }

/-- Result of `tokenize`.  The source returns an empty `std::vector` after
printing the offending character to `cerr`; `lexError` records that character
(and nothing else, faithfully to the source). -/
inductive LexResult where
  | ok (tokens : List Token)
  | lexError (c : Char)
  deriving DecidableEq, Repr

/-- Prepend a token to a successful result; an error keeps discarding every
token, matching the `return {}` of the source. -/
def consTok (t : Token) : LexResult → LexResult
  | .ok ts => .ok (t :: ts)
  | .lexError c => .lexError c

/-- Outcome of one decision of the scanning loop of `tokenize`. -/
inductive TokDecision where
  | skip (rest : List Char)
  | emit (t : Token) (rest : List Char)
  | finish
  | fail (c : Char)
  deriving DecidableEq, Repr

/-- One decision of the scanning loop of `tokenize` (`main.hpp` lines 49-127),
taken at the current position: skip a space, emit one token and continue after
it, stop at end of input, or fail on a character that starts no rule.  The
branch order is the branch order of the source; the `substr` keyword and `:=`
comparisons become list patterns (a short remainder fails the comparison in
the source exactly as it fails the pattern here). -/
def tokStep (l : List Char) : TokDecision :=
  match l with
  | [] => .finish
  | c :: rest =>
    if isspace c then .skip rest
    else if (c :: rest).take 5 == ['w', 'h', 'i', 'l', 'e'] then
      .emit ⟨.WHILE, "while"⟩ ((c :: rest).drop 5)
    else if (c :: rest).take 4 == ['d', 'o', 'n', 'e'] then
      .emit ⟨.DONE, "done"⟩ ((c :: rest).drop 4)
    else if c == ';' then .emit ⟨.SEMICOLON, ";"⟩ rest
    else if c == '(' then .emit ⟨.LPAREN, "("⟩ rest
    else if c == ')' then .emit ⟨.RPAREN, ")"⟩ rest
    else if (c :: rest).take 2 == [':', '='] then
      .emit ⟨.ASSIGN, ":="⟩ ((c :: rest).drop 2)
    else if c == '<' then .emit ⟨.LESS, "<"⟩ rest
    else if c == '>' then .emit ⟨.GREATER, ">"⟩ rest
    else if c == '=' then .emit ⟨.EQUAL, "="⟩ rest
    else if isalpha c then
      .emit (classifyRun (c :: rest.takeWhile isalnum)) (rest.dropWhile isalnum)
    else
      .fail c

/-- The scanning loop of `tokenize`, with fuel (one unit per loop step that
consumes input).  `none` means the fuel ran out; `tokenizeFuel_isSome` shows
`l.length` fuel always suffices. -/
def tokenizeFuel : Nat → List Char → Option LexResult
  | fuel, l =>
    match tokStep l with
    | .finish => some (.ok [⟨.END, ""⟩])
    | .fail c => some (.lexError c)
    | .skip rest =>
      match fuel with
      | 0 => none
      | f + 1 => tokenizeFuel f rest
    | .emit t rest =>
      match fuel with
      | 0 => none
      | f + 1 => (tokenizeFuel f rest).map (consTok t)

/-- `main.hpp` lines 44-131: the tokenizer.  The fallback value is never
reached (`tokenizeFuel_isSome`). -/
def tokenize (l : List Char) : LexResult :=
  match tokenizeFuel l.length l with
  | some r => r
  | none => .lexError ' '

/-- `main.hpp` lines 134-140: a node of the abstract tree.  Internal
nodes carry an empty `value`; leaves carry the spelling. -/
inductive ASTNode where
  | mk (type : String) (value : String) (children : List ASTNode)

/-- The `type` field of `main.hpp` line 136. -/
def ASTNode.type : ASTNode → String
  | .mk t _ _ => t

/-- The `value` field of `main.hpp` line 137. -/
def ASTNode.value : ASTNode → String
  | .mk _ v _ => v

/-- The `children` field of `main.hpp` line 138. -/
def ASTNode.children : ASTNode → List ASTNode
  | .mk _ _ c => c

/-- Placeholder node used only to totalize vector indexing in builders; no
builder of `productions` ever reaches it with the argument lists the parser
passes (each list has exactly `rhsSize` elements and every index used is
below the `rhsSize` of its production). -/
def defaultNode : ASTNode := .mk "" "" []

/-- `main.hpp` lines 149-155: the kind of a parse-table entry. -/
inductive ActionType where
  | SHIFT | REDUCE | ACCEPT | ERROR
  deriving DecidableEq, Repr

/-- `main.hpp` lines 157-161: one entry of the ACTION table. -/
structure TableEntry where
  action : ActionType
  value : Nat
  deriving DecidableEq, Repr

/-- `main.hpp` lines 167-172: a grammar production with its tree builder.
The source writes the start nonterminal as S with a prime; here it is named
`Sprime` because the file avoids primes in string literals. -/
structure Production where
  lhs : String
  rhsSize : Nat
  builder : List ASTNode → ASTNode

/-- Placeholder production for out-of-range indexing (`productions[entry.value]`
in the source is unchecked); every REDUCE index of `actionTable` is in range,
so the parser never reaches it. -/
def defaultProduction : Production := ⟨"", 0, fun _ => defaultNode⟩

/-- `main.hpp` lines 179-244: the production list, in source order.  Builders
index their argument vector exactly as the lambdas in the source do. -/
def productions : List Production := [
  ⟨"Sprime", 1, fun ch => ch.getD 0 defaultNode⟩,
  ⟨"Program", 1, fun ch => .mk "Program" "" [ch.getD 0 defaultNode]⟩,
  ⟨"StatementList", 1, fun ch => .mk "StatementList" "" [ch.getD 0 defaultNode]⟩,
  ⟨"StatementList", 3, fun ch =>
    .mk "StatementList" "" [ch.getD 0 defaultNode, ch.getD 2 defaultNode]⟩,
  ⟨"Statement", 7, fun ch =>
    .mk "WhileLoop" "" [ch.getD 2 defaultNode, ch.getD 4 defaultNode]⟩,
  ⟨"Condition", 3, fun ch =>
    .mk "Condition" "" [ch.getD 0 defaultNode, ch.getD 1 defaultNode, ch.getD 2 defaultNode]⟩,
  ⟨"Body", 1, fun ch => ch.getD 0 defaultNode⟩,
  ⟨"Assignment", 3, fun ch =>
    .mk "Assignment" "" [.mk "LValue" (ch.getD 0 defaultNode).value [], ch.getD 2 defaultNode]⟩,
  ⟨"Expression", 1, fun ch => .mk "Identifier" (ch.getD 0 defaultNode).value []⟩,
  ⟨"Expression", 1, fun ch => .mk "RomanNumeral" (ch.getD 0 defaultNode).value []⟩,
  ⟨"RelOp", 1, fun ch => .mk "RelOp" (ch.getD 0 defaultNode).value []⟩,
  ⟨"RelOp", 1, fun ch => .mk "RelOp" (ch.getD 0 defaultNode).value []⟩,
  ⟨"RelOp", 1, fun ch => .mk "RelOp" (ch.getD 0 defaultNode).value []⟩]

/-- Association-list lookup, the `find` of the `std::unordered_map` tables
(their keys are pairwise distinct in the source initializers). -/
def alookup {α β : Type} [DecidableEq α] (k : α) : List (α × β) → Option β
  | [] => none
  | p :: rest => if p.1 = k then some p.2 else alookup k rest

/-- `main.hpp` lines 247-277: the full ACTION table, state by state. -/
def actionTable : List (Nat × List (TokenType × TableEntry)) := [
  (0, [(.WHILE, ⟨.SHIFT, 2⟩), (.IDENTIFIER, ⟨.SHIFT, 3⟩)]),
  (1, [(.END, ⟨.ACCEPT, 0⟩)]),
  (2, [(.LPAREN, ⟨.SHIFT, 4⟩)]),
  (3, [(.ASSIGN, ⟨.SHIFT, 5⟩)]),
  (4, [(.IDENTIFIER, ⟨.SHIFT, 6⟩), (.ROMAN_NUMERAL, ⟨.SHIFT, 7⟩)]),
  (5, [(.IDENTIFIER, ⟨.SHIFT, 6⟩), (.ROMAN_NUMERAL, ⟨.SHIFT, 7⟩)]),
  (6, [(.LESS, ⟨.REDUCE, 8⟩), (.GREATER, ⟨.REDUCE, 8⟩), (.EQUAL, ⟨.REDUCE, 8⟩),
       (.RPAREN, ⟨.REDUCE, 8⟩), (.ASSIGN, ⟨.REDUCE, 8⟩), (.DONE, ⟨.REDUCE, 8⟩)]),
  (7, [(.LESS, ⟨.REDUCE, 9⟩), (.GREATER, ⟨.REDUCE, 9⟩), (.EQUAL, ⟨.REDUCE, 9⟩),
       (.RPAREN, ⟨.REDUCE, 9⟩), (.ASSIGN, ⟨.REDUCE, 9⟩), (.DONE, ⟨.REDUCE, 9⟩)]),
  (8, [(.LESS, ⟨.SHIFT, 9⟩), (.GREATER, ⟨.SHIFT, 10⟩), (.EQUAL, ⟨.SHIFT, 11⟩)]),
  (9, [(.IDENTIFIER, ⟨.SHIFT, 6⟩), (.ROMAN_NUMERAL, ⟨.SHIFT, 7⟩)]),
  (10, [(.IDENTIFIER, ⟨.SHIFT, 6⟩), (.ROMAN_NUMERAL, ⟨.SHIFT, 7⟩)]),
  (11, [(.IDENTIFIER, ⟨.SHIFT, 6⟩), (.ROMAN_NUMERAL, ⟨.SHIFT, 7⟩)]),
  (12, [(.IDENTIFIER, ⟨.SHIFT, 6⟩), (.ROMAN_NUMERAL, ⟨.SHIFT, 7⟩)]),
  (13, [(.IDENTIFIER, ⟨.SHIFT, 6⟩), (.ROMAN_NUMERAL, ⟨.SHIFT, 7⟩)]),
  (14, [(.IDENTIFIER, ⟨.SHIFT, 6⟩), (.ROMAN_NUMERAL, ⟨.SHIFT, 7⟩)]),
  (15, [(.RPAREN, ⟨.SHIFT, 16⟩)]),
  (16, [(.IDENTIFIER, ⟨.SHIFT, 17⟩)]),
  (17, [(.ASSIGN, ⟨.SHIFT, 18⟩)]),
  (18, [(.IDENTIFIER, ⟨.SHIFT, 6⟩), (.ROMAN_NUMERAL, ⟨.SHIFT, 7⟩)]),
  (19, [(.DONE, ⟨.SHIFT, 20⟩)]),
  (20, [(.SEMICOLON, ⟨.SHIFT, 21⟩), (.END, ⟨.REDUCE, 4⟩), (.WHILE, ⟨.REDUCE, 4⟩)]),
  (21, [(.WHILE, ⟨.SHIFT, 2⟩), (.IDENTIFIER, ⟨.SHIFT, 3⟩)]),
  (22, [(.END, ⟨.REDUCE, 1⟩), (.WHILE, ⟨.REDUCE, 1⟩)]),
  (23, [(.RPAREN, ⟨.REDUCE, 5⟩)]),
  (24, [(.RPAREN, ⟨.REDUCE, 5⟩)]),
  (25, [(.RPAREN, ⟨.REDUCE, 5⟩)]),
  (26, [(.DONE, ⟨.REDUCE, 7⟩), (.SEMICOLON, ⟨.REDUCE, 7⟩), (.END, ⟨.REDUCE, 7⟩)]),
  (27, [(.DONE, ⟨.REDUCE, 6⟩)]),
  (28, [(.END, ⟨.REDUCE, 2⟩), (.WHILE, ⟨.REDUCE, 2⟩), (.SEMICOLON, ⟨.REDUCE, 2⟩)]),
  (29, [(.END, ⟨.REDUCE, 3⟩), (.WHILE, ⟨.REDUCE, 3⟩)])]

/-- `main.hpp` lines 280-290: the full GOTO table. -/
def gotoTable : List (Nat × List (String × Nat)) := [
  (0, [("Program", 1), ("StatementList", 28), ("Statement", 20)]),
  (4, [("Condition", 15), ("Expression", 8)]),
  (5, [("Expression", 26)]),
  (9, [("Expression", 23)]),
  (10, [("Expression", 24)]),
  (11, [("Expression", 25)]),
  (16, [("Body", 19), ("Assignment", 27)]),
  (18, [("Expression", 26)]),
  (21, [("StatementList", 29), ("Statement", 20)]),
  (28, [("Program", 1)])]

/-- The mutable state of `LRParser::parse` (`main.hpp` lines 344-348): the
state stack, the value stack (both with the top at the head) and the token
cursor `pos`. -/
structure Config where
  states : List Nat
  values : List ASTNode
  pos : Nat

/-- `main.hpp` line 347 and 348: `stateStack.push(0)`, `pos = 0`. -/
def initConfig : Config := ⟨[0], [], 0⟩

/-- `main.hpp` lines 293-296 (`getCurrentTokenType`). -/
def getCurrentTokenType (toks : List Token) (pos : Nat) : TokenType :=
  match toks.get? pos with
  | some t => t.type
  | none => .END

/-- `main.hpp` lines 298-301 (`getTokenValue`). -/
def getTokenValue (toks : List Token) (pos : Nat) : String :=
  match toks.get? pos with
  | some t => t.value
  | none => "$"

/-- How one run of the driver loop of `parse` ends.  Every constructor but
`tree` is a `return nullptr` of the source, tagged with the `cerr` diagnostic
printed there. -/
inductive ParseOutcome where
  | tree (t : ASTNode)
  | noStateRow (s : Nat)
  | unexpectedToken (value : String) (s : Nat)
  | emptyStackOnReduce
  | noGotoRow (s : Nat)
  | noGotoEntry (lhs : String) (s : Nat)
  | acceptWithoutSingleValue
  | errorAction
  | internalError

/-- Result of one iteration of the driver loop: continue with a new
configuration, or stop with an outcome. -/
inductive StepResult where
  | cont (c : Config)
  | halt (r : ParseOutcome)

/-- `main.hpp` lines 393-404: the REDUCE pop loop.  Each turn checks both
stacks for emptiness (the error return of line 399 becomes `none`), pops one
entry from each, and inserts the popped value at the front of the children
vector. -/
def popLoop : Nat → List Nat → List ASTNode → List ASTNode →
    Option (List Nat × List ASTNode × List ASTNode)
  | 0, ss, vs, children => some (ss, vs, children)
  | k + 1, ss, vs, children =>
    match ss, vs with
    | [], _ => none
    | _, [] => none
    | _ :: ss2, v :: vs2 => popLoop k ss2 vs2 (v :: children)

/-- One iteration of the driver loop of `LRParser::parse`
(`main.hpp` lines 352-453). -/
def step (toks : List Token) (c : Config) : StepResult :=
  match c.states with
  | [] => .halt .internalError
  | s :: _ =>
    match alookup s actionTable with
    | none => .halt (.noStateRow s)
    | some row =>
      match alookup (getCurrentTokenType toks c.pos) row with
      | none => .halt (.unexpectedToken (getTokenValue toks c.pos) s)
      | some entry =>
        match entry.action with
        | .SHIFT =>
          .cont ⟨entry.value :: c.states,
                 ASTNode.mk "Token" (getTokenValue toks c.pos) [] :: c.values,
                 c.pos + 1⟩
        | .REDUCE =>
          match popLoop (productions.getD entry.value defaultProduction).rhsSize
              c.states c.values [] with
          | none => .halt .emptyStackOnReduce
          | some (ss, vs, children) =>
            match ss with
            | [] => .halt .internalError
            | s2 :: _ =>
              match alookup s2 gotoTable with
              | none => .halt (.noGotoRow s2)
              | some grow =>
                match alookup (productions.getD entry.value defaultProduction).lhs grow with
                | none =>
                  .halt (.noGotoEntry (productions.getD entry.value defaultProduction).lhs s2)
                | some ns =>
                  .cont ⟨ns :: ss,
                         (productions.getD entry.value defaultProduction).builder children :: vs,
                         c.pos⟩
        | .ACCEPT =>
          match c.values with
          | [v] => .halt (.tree v)
          | _ => .halt .acceptWithoutSingleValue
        | .ERROR => .halt .errorAction

/-- The driver loop of `LRParser::parse`, with fuel.  `none` means the fuel
ran out; `parse` supplies fuel that always suffices (`runP_safe`). -/
def runP (toks : List Token) : Nat → Config → Option ParseOutcome
  | 0, _ => none
  | fuel + 1, c =>
    match step toks c with
    | .halt r => some r
    | .cont c2 => runP toks fuel c2

/-- `main.hpp` lines 342-456: `LRParser::parse` on a token sequence.
`some r` is the returned value (`tree` for a non-null AST, any other outcome
for `nullptr`); the fuel is shown adequate in `parse_isSome`. -/
def parse (toks : List Token) : Option ParseOutcome :=
  runP toks (1000 * toks.length + 101) initConfig

/-- States that can never appear on the state stack of a run started from
`initConfig`: the accepting state 1 and the three states 22, 28, 29 whose
rows reduce the productions for `Program` and `StatementList`. -/
def badState (s : Nat) : Bool :=
  s == 1 || s == 22 || s == 28 || s == 29

/-- Invariant of every reachable configuration: the state stack is non-empty
and contains no `badState`. -/
def StackInv (c : Config) : Prop :=
  c.states ≠ [] ∧ ∀ s ∈ c.states, badState s = false

/-- Rank used by the termination measure: orders the states that perform
unit reductions above every state their GOTO successors can be. -/
def rank (s : Nat) : Nat :=
  if s = 6 ∨ s = 7 then 3
  else if s = 26 then 2
  else if s = 23 ∨ s = 24 ∨ s = 25 ∨ s = 27 then 1
  else 0

/-- Termination measure of the driver loop: unshifted input dominates,
then the stack height, then the rank of the current state. -/
def mu (toks : List Token) (c : Config) : Nat :=
  1000 * (toks.length - c.pos) + 100 * c.states.length + rank (c.states.headD 0)

/-- Per-entry side conditions of the ACTION table that make the invariant
and the measure work: shift targets are good states and never fire on END;
reductions have non-empty right-hand sides and GOTO successors that are good
and, for unit productions, of smaller rank; ACCEPT only in state 1.  Entries
of bad states are exempt (they are unreachable). -/
def entryOK (s : Nat) (t : TokenType) (e : TableEntry) : Bool :=
  badState s ||
  match e.action with
  | .SHIFT => !badState e.value && !(t == TokenType.END)
  | .REDUCE =>
    let p := productions.getD e.value defaultProduction
    decide (1 ≤ p.rhsSize) &&
    gotoTable.all (fun pr => pr.2.all (fun q =>
      !(q.1 == p.lhs) ||
      (!badState q.2 && (!(p.rhsSize == 1) || decide (rank q.2 < rank s)))))
  | .ACCEPT => s == 1
  | .ERROR => true

/-- All entries of the ACTION table satisfy `entryOK`. -/
def tablesOK : Bool :=
  actionTable.all (fun pr => pr.2.all (fun q => entryOK pr.1 q.1 q.2))

/-- Composition of the two ACTION lookups of the driver loop: the entry the
automaton uses in state `s` on lookahead `t` (`none` when the state row or
the token entry is missing). -/
def actionEntryOf (s : Nat) (t : TokenType) : Option TableEntry :=
  match alookup s actionTable with
  | none => none
  | some row => alookup t row

/-- Composition of the two GOTO lookups of the driver loop. -/
def gotoEntryOf (s : Nat) (lhs : String) : Option Nat :=
  match alookup s gotoTable with
  | none => none
  | some grow => alookup lhs grow

/-- Token sequence of `tokenize "while (x < V) y := I done"`. -/
def toksWhileLess : List Token := [
  ⟨.WHILE, "while"⟩, ⟨.LPAREN, "("⟩, ⟨.IDENTIFIER, "x"⟩, ⟨.LESS, "<"⟩,
  ⟨.ROMAN_NUMERAL, "V"⟩, ⟨.RPAREN, ")"⟩, ⟨.IDENTIFIER, "y"⟩, ⟨.ASSIGN, ":="⟩,
  ⟨.ROMAN_NUMERAL, "I"⟩, ⟨.DONE, "done"⟩, ⟨.END, ""⟩]

/-- Token sequence of
`tokenize "while (a = I) b := X done; while (n > III) m := a done"`. -/
def toksTwoWhile : List Token := [
  ⟨.WHILE, "while"⟩, ⟨.LPAREN, "("⟩, ⟨.IDENTIFIER, "a"⟩, ⟨.EQUAL, "="⟩,
  ⟨.ROMAN_NUMERAL, "I"⟩, ⟨.RPAREN, ")"⟩, ⟨.IDENTIFIER, "b"⟩, ⟨.ASSIGN, ":="⟩,
  ⟨.ROMAN_NUMERAL, "X"⟩, ⟨.DONE, "done"⟩, ⟨.SEMICOLON, ";"⟩,
  ⟨.WHILE, "while"⟩, ⟨.LPAREN, "("⟩, ⟨.IDENTIFIER, "n"⟩, ⟨.GREATER, ">"⟩,
  ⟨.ROMAN_NUMERAL, "III"⟩, ⟨.RPAREN, ")"⟩, ⟨.IDENTIFIER, "m"⟩, ⟨.ASSIGN, ":="⟩,
  ⟨.IDENTIFIER, "a"⟩, ⟨.DONE, "done"⟩, ⟨.END, ""⟩]

/-- Token sequence of `tokenize "while (x <> V) y := I done"`. -/
def toksRelop : List Token := [
  ⟨.WHILE, "while"⟩, ⟨.LPAREN, "("⟩, ⟨.IDENTIFIER, "x"⟩, ⟨.LESS, "<"⟩,
  ⟨.GREATER, ">"⟩, ⟨.ROMAN_NUMERAL, "V"⟩, ⟨.RPAREN, ")"⟩, ⟨.IDENTIFIER, "y"⟩,
  ⟨.ASSIGN, ":="⟩, ⟨.ROMAN_NUMERAL, "I"⟩, ⟨.DONE, "done"⟩, ⟨.END, ""⟩]

/-- Configuration of the run on `toksWhileLess` just before its first
reduction (state 6 on lookahead `<`). -/
def cBeforeReduce : Config :=
  ⟨[6, 4, 2, 0],
   [ASTNode.mk "Token" "x" [], ASTNode.mk "Token" "(" [],
    ASTNode.mk "Token" "while" []], 3⟩

/-- Configuration reached from `cBeforeReduce` by the reduction with
production 8 (`Expression ::= IDENTIFIER`). -/
def cAfterReduce : Config :=
  ⟨[8, 4, 2, 0],
   [ASTNode.mk "Identifier" "x" [], ASTNode.mk "Token" "(" [],
    ASTNode.mk "Token" "while" []], 3⟩

theorem rank_le_three (s : Nat) : rank s ≤ 3 := by
  unfold rank
  repeat' split
  all_goals omega

theorem tablesOK_eq : tablesOK = true := by decide

theorem alookup_mem {α β : Type} [DecidableEq α] {k : α} {v : β} :
    ∀ {l : List (α × β)}, alookup k l = some v → (k, v) ∈ l := by
  intro l
  induction l with
  | nil => intro h; simp [alookup] at h
  | cons p rest ih =>
    intro h
    rw [alookup] at h
    by_cases hp : p.1 = k
    · simp only [hp, if_pos rfl] at h
      injection h with h
      have hpv : p = (k, v) := by
        cases p
        simp only [Prod.mk.injEq]
        exact ⟨hp, h⟩
      rw [hpv]
      exact List.mem_cons_self _ _
    · simp only [if_neg hp] at h
      exact List.mem_cons_of_mem _ (ih h)

theorem table_entryOK {s : Nat} {row : List (TokenType × TableEntry)}
    {t : TokenType} {e : TableEntry}
    (hrow : alookup s actionTable = some row)
    (hent : alookup t row = some e) : entryOK s t e = true := by
  have h1 := alookup_mem hrow
  have h2 := alookup_mem hent
  have hall := tablesOK_eq
  unfold tablesOK at hall
  rw [List.all_eq_true] at hall
  have hrow2 := hall _ h1
  rw [List.all_eq_true] at hrow2
  exact hrow2 _ h2

theorem popLoop_eq : ∀ (k : Nat) (ss : List Nat) (vs acc : List ASTNode),
    popLoop k ss vs acc =
      if k ≤ ss.length ∧ k ≤ vs.length then
        some (ss.drop k, vs.drop k, (vs.take k).reverse ++ acc)
      else none := by
  intro k
  induction k with
  | zero => intro ss vs acc; simp [popLoop]
  | succ k ih =>
    intro ss vs acc
    match ss, vs with
    | [], _ => simp [popLoop]
    | s :: ss2, [] => simp [popLoop]
    | s :: ss2, v :: vs2 =>
      rw [popLoop, ih]
      by_cases h : k ≤ ss2.length ∧ k ≤ vs2.length
      · rw [if_pos h, if_pos (by simp; omega)]
        simp [List.take_succ_cons, List.drop_succ_cons]
      · rw [if_neg h, if_neg (by simp; omega)]


theorem dropWhile_len_le {α : Type} (p : α → Bool) :
    ∀ l : List α, (l.dropWhile p).length ≤ l.length := by
  intro l
  induction l with
  | nil => simp [List.dropWhile]
  | cons a as ih =>
    rw [List.dropWhile]
    cases hp : p a
    · simp
    · simp only []
      calc (as.dropWhile p).length ≤ as.length := ih
        _ ≤ (a :: as).length := by simp

theorem tokStep_cons (c : Char) (rest : List Char) :
    tokStep (c :: rest) =
      (if isspace c then .skip rest
       else if (c :: rest).take 5 == ['w', 'h', 'i', 'l', 'e'] then
         .emit ⟨.WHILE, "while"⟩ ((c :: rest).drop 5)
       else if (c :: rest).take 4 == ['d', 'o', 'n', 'e'] then
         .emit ⟨.DONE, "done"⟩ ((c :: rest).drop 4)
       else if c == ';' then .emit ⟨.SEMICOLON, ";"⟩ rest
       else if c == '(' then .emit ⟨.LPAREN, "("⟩ rest
       else if c == ')' then .emit ⟨.RPAREN, ")"⟩ rest
       else if (c :: rest).take 2 == [':', '='] then
         .emit ⟨.ASSIGN, ":="⟩ ((c :: rest).drop 2)
       else if c == '<' then .emit ⟨.LESS, "<"⟩ rest
       else if c == '>' then .emit ⟨.GREATER, ">"⟩ rest
       else if c == '=' then .emit ⟨.EQUAL, "="⟩ rest
       else if isalpha c then
         .emit (classifyRun (c :: rest.takeWhile isalnum)) (rest.dropWhile isalnum)
       else
         .fail c) := rfl

set_option maxHeartbeats 4000000 in
theorem tokStep_skip_length {l rest : List Char} (h : tokStep l = .skip rest) :
    rest.length < l.length := by
  match l with
  | [] => exact TokDecision.noConfusion h
  | c :: r =>
    rw [tokStep_cons] at h
    split at h
    · injection h with h
      subst h
      simp only [List.length_cons]
      omega
    · repeat' split at h
      all_goals exact TokDecision.noConfusion h

set_option maxHeartbeats 4000000 in
theorem tokStep_emit_length {l rest : List Char} {t : Token}
    (h : tokStep l = .emit t rest) : rest.length < l.length := by
  match l with
  | [] => exact TokDecision.noConfusion h
  | c :: r =>
    rw [tokStep_cons] at h
    split at h
    · exact TokDecision.noConfusion h
    · repeat' split at h
      all_goals first
        | exact TokDecision.noConfusion h
        | (injection h with h1 h2
           subst h2
           simp only [List.length_drop, List.length_cons]
           omega)
        | (injection h with h1 h2
           subst h2
           have hd := dropWhile_len_le isalnum r
           simp only [List.length_cons]
           omega)

theorem tokenizeFuel_isSome : ∀ (fuel : Nat) (l : List Char), l.length ≤ fuel →
    (tokenizeFuel fuel l).isSome := by
  intro fuel
  induction fuel with
  | zero =>
    intro l hl
    have hl0 : l = [] := List.eq_nil_of_length_eq_zero (Nat.le_zero.mp hl)
    subst hl0
    rfl
  | succ f ih =>
    intro l hl
    rw [tokenizeFuel]
    cases htS : tokStep l with
    | skip rest =>
      exact ih rest (by have := tokStep_skip_length htS; omega)
    | emit t rest =>
      show (Option.map (consTok t) (tokenizeFuel f rest)).isSome = true
      obtain ⟨r, hr2⟩ :=
        Option.isSome_iff_exists.mp (ih rest (by have := tokStep_emit_length htS; omega))
      rw [hr2]
      rfl
    | finish => rfl
    | fail c => rfl

theorem tokenizeFuel_irrel : ∀ (f g : Nat) (l : List Char), l.length ≤ f → l.length ≤ g →
    tokenizeFuel f l = tokenizeFuel g l := by
  intro f
  induction f with
  | zero =>
    intro g l h1 h2
    have hl0 : l = [] := List.eq_nil_of_length_eq_zero (Nat.le_zero.mp h1)
    subst hl0
    conv_lhs => rw [tokenizeFuel]
    conv_rhs => rw [tokenizeFuel]
    rfl
  | succ f ih =>
    intro g l h1 h2
    match g with
    | 0 =>
      have hl0 : l = [] := List.eq_nil_of_length_eq_zero (Nat.le_zero.mp h2)
      subst hl0
      conv_lhs => rw [tokenizeFuel]
      conv_rhs => rw [tokenizeFuel]
      rfl
    | g2 + 1 =>
      conv_lhs => rw [tokenizeFuel]
      conv_rhs => rw [tokenizeFuel]
      cases htS : tokStep l with
      | skip rest =>
        exact ih g2 rest
          (by have := tokStep_skip_length htS; omega)
          (by have := tokStep_skip_length htS; omega)
      | emit t rest =>
        show Option.map (consTok t) (tokenizeFuel f rest) =
          Option.map (consTok t) (tokenizeFuel g2 rest)
        rw [ih g2 rest
          (by have := tokStep_emit_length htS; omega)
          (by have := tokStep_emit_length htS; omega)]
      | finish => rfl
      | fail c => rfl

theorem tokenizeFuel_len (l : List Char) : tokenizeFuel l.length l = some (tokenize l) := by
  obtain ⟨r, hr⟩ := Option.isSome_iff_exists.mp (tokenizeFuel_isSome l.length l (le_refl _))
  rw [hr]
  suffices hs : tokenize l = r by rw [hs]
  rw [tokenize, hr]

theorem tokenize_eq_fuel {f : Nat} {l : List Char} (h : l.length ≤ f) :
    tokenizeFuel f l = some (tokenize l) := by
  rw [tokenizeFuel_irrel f l.length l h (le_refl _), tokenizeFuel_len]

theorem tokenize_skip {l rest : List Char} (h : tokStep l = .skip rest) :
    tokenize l = tokenize rest := by
  have hlen := tokStep_skip_length h
  obtain ⟨n, hn⟩ : ∃ n, l.length = n + 1 := ⟨l.length - 1, by omega⟩
  have h2 : tokenizeFuel l.length l = some (tokenize rest) := by
    rw [hn]
    conv_lhs => rw [tokenizeFuel]
    rw [h]
    exact tokenize_eq_fuel (by omega)
  rw [tokenize, h2]

theorem tokenize_emit {l rest : List Char} {t : Token} (h : tokStep l = .emit t rest) :
    tokenize l = consTok t (tokenize rest) := by
  have hlen := tokStep_emit_length h
  obtain ⟨n, hn⟩ : ∃ n, l.length = n + 1 := ⟨l.length - 1, by omega⟩
  have h2 : tokenizeFuel l.length l = some (consTok t (tokenize rest)) := by
    rw [hn]
    conv_lhs => rw [tokenizeFuel]
    rw [h]
    show (tokenizeFuel n rest).map (consTok t) = _
    rw [tokenize_eq_fuel (by omega)]
    rfl
  rw [tokenize, h2]

theorem tokenize_fail {l : List Char} {c : Char} (h : tokStep l = .fail c) :
    tokenize l = .lexError c := by
  have h2 : tokenizeFuel l.length l = some (.lexError c) := by
    conv_lhs => rw [tokenizeFuel]
    rw [h]
  rw [tokenize, h2]

set_option maxHeartbeats 1000000 in
theorem step_cont_main {toks : List Token} {c c2 : Config}
    (hInv : StackInv c) (hstep : step toks c = .cont c2) :
    StackInv c2 ∧ mu toks c2 < mu toks c := by
  obtain ⟨hne, hmem⟩ := hInv
  rw [step] at hstep
  split at hstep
  · rename_i hS
    exact absurd hS hne
  · rename_i s tl hS
    split at hstep
    · exact StepResult.noConfusion hstep
    · rename_i row hrow
      split at hstep
      · exact StepResult.noConfusion hstep
      · rename_i entry hent
        have hOK := table_entryOK hrow hent
        have hbads : badState s = false := hmem s (by rw [hS]; exact List.mem_cons_self _ _)
        split at hstep
        · -- SHIFT
          rename_i hact
          rw [entryOK, hact, hbads] at hOK
          simp only [Bool.false_or, Bool.and_eq_true, Bool.not_eq_true',
            beq_eq_false_iff_ne, ne_eq] at hOK
          obtain ⟨hOK1, hOK2⟩ := hOK
          injection hstep with hstep
          subst hstep
          have hpos : c.pos < toks.length := by
            by_contra hge
            push_neg at hge
            have hnone : toks.get? c.pos = none := by
              rw [List.get?_eq_none]
              exact hge
            rw [getCurrentTokenType, hnone] at hOK2
            exact hOK2 rfl
          constructor
          · constructor
            · simp
            · intro x hx
              rcases List.mem_cons.mp hx with hx | hx
              · subst hx; exact hOK1
              · exact hmem x hx
          · simp only [mu, hS, List.length_cons, List.headD_cons]
            have h1 := rank_le_three entry.value
            have h2 := rank_le_three s
            omega
        · -- REDUCE
          rename_i hact
          rw [entryOK, hact, hbads] at hOK
          simp only [Bool.false_or, Bool.and_eq_true, decide_eq_true_eq,
            List.all_eq_true, Bool.or_eq_true, Bool.not_eq_true',
            beq_eq_false_iff_ne, ne_eq, beq_iff_eq, decide_eq_true_eq] at hOK
          obtain ⟨hrhs, hgall⟩ := hOK
          split at hstep
          · exact StepResult.noConfusion hstep
          · rename_i ss vs children hpop
            split at hstep
            · exact StepResult.noConfusion hstep
            · rename_i s2 ss2
              split at hstep
              · exact StepResult.noConfusion hstep
              · rename_i grow hgrow
                split at hstep
                · exact StepResult.noConfusion hstep
                · rename_i ns hns
                  injection hstep with hstep
                  subst hstep
                  rw [popLoop_eq] at hpop
                  split at hpop
                  · rename_i hk
                    injection hpop with hpop
                    simp only [Prod.mk.injEq] at hpop
                    obtain ⟨h1, h2, h3⟩ := hpop
                    have hq := hgall _ (alookup_mem hgrow) _ (alookup_mem hns)
                    rcases hq with hq | hq
                    · exact absurd rfl hq
                    · obtain ⟨hnsbad, hunit⟩ := hq
                      replace hnsbad : badState ns = false := hnsbad
                      replace hunit :
                          ¬(productions.getD entry.value defaultProduction).rhsSize = 1 ∨
                            rank ns < rank s := hunit
                      constructor
                      · constructor
                        · simp
                        · intro x hx
                          rcases List.mem_cons.mp hx with hx | hx
                          · subst hx; exact hnsbad
                          · rw [← h1] at hx
                            exact hmem x (List.drop_subset _ _ hx)
                      · have hlen_ss : (s2 :: ss2 : List Nat).length =
                            c.states.length -
                              (productions.getD entry.value defaultProduction).rhsSize := by
                          rw [← h1]
                          exact List.length_drop _ _
                        have hsl : c.states.length = tl.length + 1 := by rw [hS]; rfl
                        simp only [mu, hS, List.length_cons, List.headD_cons]
                        simp only [List.length_cons] at hlen_ss
                        have hr1 := rank_le_three ns
                        have hr2 := rank_le_three s
                        rcases hunit with hunit | hunit
                        · omega
                        · omega
                  · exact Option.noConfusion hpop
        · -- ACCEPT
          split at hstep <;> exact StepResult.noConfusion hstep
        · -- ERROR
          exact StepResult.noConfusion hstep


set_option maxHeartbeats 1000000 in
theorem step_halt_no_tree {toks : List Token} {c : Config} {r : ParseOutcome}
    (hInv : StackInv c) (hstep : step toks c = .halt r) : ∀ t, r ≠ .tree t := by
  obtain ⟨hne, hmem⟩ := hInv
  rw [step] at hstep
  split at hstep
  · rename_i hS
    exact absurd hS hne
  · rename_i s tl hS
    split at hstep
    · injection hstep with hstep
      subst hstep
      intro t ht
      exact ParseOutcome.noConfusion ht
    · rename_i row hrow
      split at hstep
      · injection hstep with hstep
        subst hstep
        intro t ht
        exact ParseOutcome.noConfusion ht
      · rename_i entry hent
        have hOK := table_entryOK hrow hent
        have hbads : badState s = false := hmem s (by rw [hS]; exact List.mem_cons_self _ _)
        split at hstep
        · -- SHIFT: continues, never halts
          exact StepResult.noConfusion hstep
        · -- REDUCE halt sites
          split at hstep
          · injection hstep with hstep
            subst hstep
            intro t ht
            exact ParseOutcome.noConfusion ht
          · rename_i ss vs children hpop
            split at hstep
            · injection hstep with hstep
              subst hstep
              intro t ht
              exact ParseOutcome.noConfusion ht
            · rename_i s2 ss2
              split at hstep
              · injection hstep with hstep
                subst hstep
                intro t ht
                exact ParseOutcome.noConfusion ht
              · rename_i grow hgrow
                split at hstep
                · injection hstep with hstep
                  subst hstep
                  intro t ht
                  exact ParseOutcome.noConfusion ht
                · exact StepResult.noConfusion hstep
        · -- ACCEPT: under the invariant the state is never 1
          rename_i hact
          rw [entryOK, hact, hbads] at hOK
          simp only [Bool.false_or, beq_iff_eq] at hOK
          subst hOK
          simp [badState] at hbads
        · -- ERROR
          injection hstep with hstep
          subst hstep
          intro t ht
          exact ParseOutcome.noConfusion ht

theorem runP_safe (toks : List Token) : ∀ (fuel : Nat) (c : Config),
    StackInv c → mu toks c < fuel →
    ∃ r, runP toks fuel c = some r ∧ ∀ t, r ≠ .tree t := by
  intro fuel
  induction fuel with
  | zero =>
    intro c _ hmu
    exact absurd hmu (Nat.not_lt_zero _)
  | succ f ih =>
    intro c hInv hmu
    rw [runP]
    rcases hstep : step toks c with c2 | r
    · obtain ⟨hInv2, hlt⟩ := step_cont_main hInv hstep
      exact ih c2 hInv2 (by omega)
    · exact ⟨r, rfl, step_halt_no_tree hInv hstep⟩

theorem initConfig_inv : StackInv initConfig := by
  constructor
  · simp [initConfig]
  · intro s hs
    simp only [initConfig] at hs
    rcases List.mem_cons.mp hs with hs | hs
    · subst hs
      rfl
    · simp at hs

theorem parse_safe (toks : List Token) :
    ∃ r, parse toks = some r ∧ ∀ t, r ≠ .tree t := by
  apply runP_safe toks _ initConfig initConfig_inv
  have h : rank 0 = 0 := rfl
  simp only [mu, initConfig, List.length_cons, List.length_nil, List.headD_cons, h]
  omega

set_option maxHeartbeats 1000000 in
theorem step_lockstep {toks : List Token} {c c2 : Config}
    (hlock : c.states.length = c.values.length + 1)
    (hstep : step toks c = .cont c2) :
    c2.states.length = c2.values.length + 1 := by
  rw [step] at hstep
  split at hstep
  · exact StepResult.noConfusion hstep
  · rename_i s tl hS
    split at hstep
    · exact StepResult.noConfusion hstep
    · rename_i row hrow
      split at hstep
      · exact StepResult.noConfusion hstep
      · rename_i entry hent
        split at hstep
        · injection hstep with hstep
          subst hstep
          simp only [List.length_cons]
          omega
        · split at hstep
          · exact StepResult.noConfusion hstep
          · rename_i ss vs children hpop
            split at hstep
            · exact StepResult.noConfusion hstep
            · rename_i s2 ss2
              split at hstep
              · exact StepResult.noConfusion hstep
              · rename_i grow hgrow
                split at hstep
                · exact StepResult.noConfusion hstep
                · rename_i ns hns
                  injection hstep with hstep
                  subst hstep
                  rw [popLoop_eq] at hpop
                  split at hpop
                  · rename_i hk
                    injection hpop with hpop
                    simp only [Prod.mk.injEq] at hpop
                    obtain ⟨h1, h2, h3⟩ := hpop
                    have e1 : (s2 :: ss2 : List Nat).length =
                        c.states.length -
                          (productions.getD entry.value defaultProduction).rhsSize := by
                      rw [← h1]
                      exact List.length_drop _ _
                    have e2 : vs.length =
                        c.values.length -
                          (productions.getD entry.value defaultProduction).rhsSize := by
                      rw [← h2]
                      exact List.length_drop _ _
                    simp only [List.length_cons] at e1 ⊢
                    omega
                  · exact Option.noConfusion hpop
        · split at hstep <;> exact StepResult.noConfusion hstep
        · exact StepResult.noConfusion hstep

/-- Claim C1: the spec asserts that parsing any valid input (one or more
`while (E relop E) id := E done` statements separated by `;`) succeeds with a
`Program` tree.  The code refutes it: on the valid two-statement input
`"while (a = I) b := X done; while (n > III) m := a done"` the tokenizer
succeeds but `LRParser::parse` returns the failure result (after the REDUCE
of production 4 the new top state 20 has no GOTO row), never a tree.  This
theorem evaluates the embedded code at that failing input. -/
theorem claim_C1 :
    tokenize ("while (a = I) b := X done; while (n > III) m := a done".data) =
      .ok toksTwoWhile ∧
    parse toksTwoWhile = some (ParseOutcome.noGotoRow 20) ∧
    ∀ t, parse toksTwoWhile ≠ some (ParseOutcome.tree t) := by
  refine ⟨rfl, rfl, ?_⟩
  intro t h
  rw [show parse toksTwoWhile = some (ParseOutcome.noGotoRow 20) from rfl] at h
  injection h with h
  exact ParseOutcome.noConfusion h

/-- Claim C2: for every input token sequence, `LRParser::parse` terminates
with the failure result (`nullptr`) and never returns an AST, because the
ACCEPT action exists only in state 1, state 1 is a GOTO target only for
`Program`, `Program` is reduced only by REDUCE 1 in state 22, and state 22
is neither a SHIFT target nor a GOTO target, so it is unreachable from the
initial configuration. -/
theorem claim_C2 :
    (∀ toks : List Token, ∃ r, parse toks = some r ∧
      ∀ t, r ≠ ParseOutcome.tree t) ∧
    actionTable.all (fun pr => pr.2.all (fun q =>
      !(q.2.action == ActionType.ACCEPT) || (pr.1 == 1))) = true ∧
    gotoTable.all (fun pr => pr.2.all (fun q =>
      !(q.2 == 1) || (q.1 == "Program"))) = true ∧
    actionTable.all (fun pr => pr.2.all (fun q =>
      !((q.2.action == ActionType.REDUCE) && (q.2.value == 1)) || (pr.1 == 22))) = true ∧
    actionTable.all (fun pr => pr.2.all (fun q =>
      !(q.2.action == ActionType.SHIFT) || !(q.2.value == 22))) = true ∧
    gotoTable.all (fun pr => pr.2.all (fun q => !(q.2 == 22))) = true :=
  ⟨parse_safe, by decide, by decide, by decide, by decide, by decide⟩

/-- Claim C3: the spec asserts that `"while (x < V) y := I done"` parses into
a `Program`/`StatementList`/`WhileLoop` tree.  The code refutes it: the input
tokenizes, but `LRParser::parse` returns the failure result because the
REDUCE of production 4 (`rhsSize` 7) underflows the value stack, which holds
only 6 entries.  This theorem evaluates the embedded code at that input. -/
theorem claim_C3 :
    tokenize ("while (x < V) y := I done".data) = .ok toksWhileLess ∧
    parse toksWhileLess = some ParseOutcome.emptyStackOnReduce ∧
    ∀ t, parse toksWhileLess ≠ some (ParseOutcome.tree t) := by
  refine ⟨rfl, rfl, ?_⟩
  intro t h
  rw [show parse toksWhileLess = some ParseOutcome.emptyStackOnReduce from rfl] at h
  injection h with h
  exact ParseOutcome.noConfusion h

/-- Claim C4: after initialization (state stack `[0]`, value stack empty) and
after every completed shift or reduce step of the driver loop,
`len(stateStack) = len(valueStack) + 1`. -/
theorem claim_C4 :
    initConfig.states.length = initConfig.values.length + 1 ∧
    ∀ (toks : List Token) (c c2 : Config),
      c.states.length = c.values.length + 1 →
      step toks c = .cont c2 →
      c2.states.length = c2.values.length + 1 :=
  ⟨rfl, fun _ _ _ => step_lockstep⟩

/-- Witness for C4: the preservation clause applied to the very first shift
of a run on the single token `while`. -/
theorem claim_C4_witness :
    initConfig.states.length = initConfig.values.length + 1 ∧
    step [⟨.WHILE, "while"⟩] initConfig =
      .cont ⟨[2, 0], [ASTNode.mk "Token" "while" []], 1⟩ ∧
    (⟨[2, 0], [ASTNode.mk "Token" "while" []], 1⟩ : Config).states.length =
      (⟨[2, 0], [ASTNode.mk "Token" "while" []], 1⟩ : Config).values.length + 1 :=
  ⟨rfl, rfl,
    claim_C4.2 [⟨.WHILE, "while"⟩] initConfig
      ⟨[2, 0], [ASTNode.mk "Token" "while" []], 1⟩ rfl rfl⟩

/-- Claim C5: on every finite token sequence the driver loop of
`LRParser::parse` terminates with some result (the fuel supplied by `parse`
is never exhausted). -/
theorem claim_C5 : ∀ toks : List Token, (parse toks).isSome = true := by
  intro toks
  obtain ⟨r, hr, _⟩ := parse_safe toks
  rw [hr]
  rfl

/-- Claim C6: a maximal alphanumeric run is classified `ROMAN_NUMERAL` if and
only if it is non-empty and every character is `I`, `V` or `X` (uppercase
only); otherwise it is classified `IDENTIFIER`; in both cases the token text
is the run itself.  The concrete conjuncts exercise the classification
through `tokenize` (note the lowercase run `ix` and the digit run `x9` become
identifiers). -/
theorem claim_C6 :
    (∀ w : List Char,
      ((classifyRun w).type = TokenType.ROMAN_NUMERAL ↔
        w ≠ [] ∧ ∀ c ∈ w, isRomanChar c = true) ∧
      ((classifyRun w).type = TokenType.ROMAN_NUMERAL ∨
        (classifyRun w).type = TokenType.IDENTIFIER) ∧
      (classifyRun w).value = String.mk w) ∧
    tokenize ("XIX".data) = .ok [⟨.ROMAN_NUMERAL, "XIX"⟩, ⟨.END, ""⟩] ∧
    tokenize ("ix".data) = .ok [⟨.IDENTIFIER, "ix"⟩, ⟨.END, ""⟩] ∧
    tokenize ("x9".data) = .ok [⟨.IDENTIFIER, "x9"⟩, ⟨.END, ""⟩] := by
  refine ⟨?_, rfl, rfl, rfl⟩
  intro w
  refine ⟨⟨?_, ?_⟩, ?_, rfl⟩
  · intro htype
    by_cases h : isRomanWord w = true
    · rw [isRomanWord, Bool.and_eq_true, List.all_eq_true] at h
      refine ⟨?_, fun c hc => h.2 c hc⟩
      intro hnil
      subst hnil
      simp at h
    · simp [classifyRun, h] at htype
  · rintro ⟨hnil, hall⟩
    have h : isRomanWord w = true := by
      rw [isRomanWord, Bool.and_eq_true, List.all_eq_true]
      exact ⟨by simpa using hnil, hall⟩
    simp [classifyRun, h]
  · by_cases h : isRomanWord w = true
    · left
      simp [classifyRun, h]
    · right
      simp [classifyRun, h]

/-- Counterexample for C7: the offending character at position 0 of `"@"` and
at position 1 of `" @"` produce bitwise identical results, so the result of
`tokenize` cannot carry the exact position of the offending character (the
source prints only the character and returns an empty vector). -/
theorem claim_C7_counterexample :
    tokenize ['@'] = .lexError '@' ∧
    tokenize [' ', '@'] = .lexError '@' ∧
    tokenize ['@'] = tokenize [' ', '@'] ∧
    List.indexOf '@' ['@'] = 0 ∧
    List.indexOf '@' [' ', '@'] = 1 :=
  ⟨rfl, rfl, rfl, by decide, by decide⟩

/-- Claim C7 (amended): when the scanning loop reaches a character that can
start no token rule, `tokenize` halts immediately and reports a `LexError`
carrying the offending character (but not its position), returning no usable
token sequence. -/
theorem claim_C7 : ∀ (c : Char) (rest : List Char),
    isspace c = false →
    isalpha c = false →
    (c :: rest).take 5 ≠ ['w', 'h', 'i', 'l', 'e'] →
    (c :: rest).take 4 ≠ ['d', 'o', 'n', 'e'] →
    c ≠ ';' → c ≠ '(' → c ≠ ')' →
    (c :: rest).take 2 ≠ [':', '='] →
    c ≠ '<' → c ≠ '>' → c ≠ '=' →
    tokenize (c :: rest) = .lexError c := by
  intro c rest h1 h2 h3 h4 h5 h6 h7 h8 h9 h10 h11
  apply tokenize_fail
  rw [tokStep_cons]
  rw [if_neg (by simp [h1]),
      if_neg (by simp only [beq_iff_eq]; exact h3),
      if_neg (by simp only [beq_iff_eq]; exact h4),
      if_neg (by simp [h5]), if_neg (by simp [h6]), if_neg (by simp [h7]),
      if_neg (by simp only [beq_iff_eq]; exact h8),
      if_neg (by simp [h9]), if_neg (by simp [h10]),
      if_neg (by simp [h11]), if_neg (by simp [h2])]

/-- Witness for C7: the amended claim applied at the character `@` followed
by the remainder of the concrete spec scenario, plus the full spec scenario
`"while (x @ V) y := I done"` evaluated directly. -/
theorem claim_C7_witness :
    isspace '@' = false ∧ isalpha '@' = false ∧
    tokenize ('@' :: (" V) y := I done".data)) = .lexError '@' ∧
    tokenize ("while (x @ V) y := I done".data) = .lexError '@' :=
  ⟨rfl, rfl,
    claim_C7 '@' (" V) y := I done".data) rfl rfl (by decide) (by decide)
      (by decide) (by decide) (by decide) (by decide) (by decide) (by decide)
      (by decide),
    rfl⟩

/-- Claim C8: whenever the driver loop performs a completed REDUCE step with
production `p`, it pops exactly `p.rhsSize` entries from both stacks, the
children list handed to the builder is the popped values in their original
left-to-right (stack bottom-to-top) order, and the token cursor does not
move. -/
theorem claim_C8 {toks : List Token} {c c2 : Config} {e : TableEntry}
    (hentry : actionEntryOf (c.states.headD 0) (getCurrentTokenType toks c.pos) = some e)
    (hact : e.action = ActionType.REDUCE)
    (hstep : step toks c = .cont c2) :
    c2.pos = c.pos ∧
    (productions.getD e.value defaultProduction).rhsSize ≤ c.states.length ∧
    (productions.getD e.value defaultProduction).rhsSize ≤ c.values.length ∧
    c2.states.length + (productions.getD e.value defaultProduction).rhsSize =
      c.states.length + 1 ∧
    c2.values.length + (productions.getD e.value defaultProduction).rhsSize =
      c.values.length + 1 ∧
    c2.values = (productions.getD e.value defaultProduction).builder
        ((c.values.take (productions.getD e.value defaultProduction).rhsSize).reverse) ::
      c.values.drop (productions.getD e.value defaultProduction).rhsSize ∧
    c2.states.tail = c.states.drop (productions.getD e.value defaultProduction).rhsSize := by
  rw [step] at hstep
  split at hstep
  · exact StepResult.noConfusion hstep
  · rename_i s tl hS
    rw [actionEntryOf, hS, List.headD_cons] at hentry
    split at hstep
    · exact StepResult.noConfusion hstep
    · rename_i row hrow
      rw [hrow] at hentry
      replace hentry : alookup (getCurrentTokenType toks c.pos) row = some e := hentry
      split at hstep
      · rename_i hent
        rw [hent] at hentry
        exact Option.noConfusion hentry
      · rename_i entry hent
        rw [hent] at hentry
        injection hentry with hentry
        subst hentry
        split at hstep
        · rename_i hsh
          rw [hact] at hsh
          exact ActionType.noConfusion hsh
        · split at hstep
          · exact StepResult.noConfusion hstep
          · rename_i ss vs children hpop
            split at hstep
            · exact StepResult.noConfusion hstep
            · rename_i s2 ss2
              split at hstep
              · exact StepResult.noConfusion hstep
              · rename_i grow hgrow
                split at hstep
                · exact StepResult.noConfusion hstep
                · rename_i ns hns
                  injection hstep with hstep
                  subst hstep
                  rw [popLoop_eq] at hpop
                  split at hpop
                  · rename_i hk
                    injection hpop with hpop
                    simp only [Prod.mk.injEq] at hpop
                    obtain ⟨h1, h2, h3⟩ := hpop
                    have e1 : (s2 :: ss2 : List Nat).length =
                        c.states.length -
                          (productions.getD entry.value defaultProduction).rhsSize := by
                      rw [← h1]
                      exact List.length_drop _ _
                    have e2 : vs.length =
                        c.values.length -
                          (productions.getD entry.value defaultProduction).rhsSize := by
                      rw [← h2]
                      exact List.length_drop _ _
                    refine ⟨rfl, hk.1, hk.2, ?_, ?_, ?_, ?_⟩
                    · simp only [List.length_cons] at e1 ⊢
                      omega
                    · simp only [List.length_cons]
                      omega
                    · have h3b : children =
                          (c.values.take
                            (productions.getD entry.value defaultProduction).rhsSize).reverse := by
                        rw [← h3, List.append_nil]
                      rw [show (⟨ns :: s2 :: ss2,
                            (productions.getD entry.value defaultProduction).builder children :: vs,
                            c.pos⟩ : Config).values =
                          (productions.getD entry.value defaultProduction).builder children :: vs
                          from rfl, h3b, ← h2]
                    · simp only [List.tail_cons]
                      exact h1.symm
                  · exact Option.noConfusion hpop
        · rename_i hsh
          rw [hact] at hsh
          exact ActionType.noConfusion hsh
        · rename_i hsh
          rw [hact] at hsh
          exact ActionType.noConfusion hsh

/-- Witness for C8: the first reduction of the run on
`"while (x < V) y := I done"` (state 6, lookahead `<`, production 8,
`Expression ::= IDENTIFIER`, `rhsSize` 1). -/
theorem claim_C8_witness :
    actionEntryOf (cBeforeReduce.states.headD 0)
      (getCurrentTokenType toksWhileLess cBeforeReduce.pos) =
        some ⟨ActionType.REDUCE, 8⟩ ∧
    (⟨ActionType.REDUCE, 8⟩ : TableEntry).action = ActionType.REDUCE ∧
    step toksWhileLess cBeforeReduce = .cont cAfterReduce ∧
    (cAfterReduce.pos = cBeforeReduce.pos ∧
     (productions.getD 8 defaultProduction).rhsSize ≤ cBeforeReduce.states.length ∧
     (productions.getD 8 defaultProduction).rhsSize ≤ cBeforeReduce.values.length ∧
     cAfterReduce.states.length + (productions.getD 8 defaultProduction).rhsSize =
       cBeforeReduce.states.length + 1 ∧
     cAfterReduce.values.length + (productions.getD 8 defaultProduction).rhsSize =
       cBeforeReduce.values.length + 1 ∧
     cAfterReduce.values = (productions.getD 8 defaultProduction).builder
         ((cBeforeReduce.values.take
           (productions.getD 8 defaultProduction).rhsSize).reverse) ::
       cBeforeReduce.values.drop (productions.getD 8 defaultProduction).rhsSize ∧
     cAfterReduce.states.tail =
       cBeforeReduce.states.drop (productions.getD 8 defaultProduction).rhsSize) :=
  ⟨rfl, rfl, rfl,
    @claim_C8 toksWhileLess cBeforeReduce cAfterReduce ⟨ActionType.REDUCE, 8⟩ rfl rfl rfl⟩

/-- Claim C9: tokenizing and parsing `"while (x <> V) y := I done"` produces
the unexpected-token failure at the `>` token in state 9 (the state entered
by shifting `<` from state 8), whose row has no action for any relational
operator; the run neither crashes nor yields a tree. -/
theorem claim_C9 :
    tokenize ("while (x <> V) y := I done".data) = .ok toksRelop ∧
    parse toksRelop = some (ParseOutcome.unexpectedToken ">" 9) ∧
    actionEntryOf 8 TokenType.LESS = some ⟨ActionType.SHIFT, 9⟩ ∧
    actionEntryOf 9 TokenType.LESS = none ∧
    actionEntryOf 9 TokenType.GREATER = none ∧
    actionEntryOf 9 TokenType.EQUAL = none ∧
    ∀ t, parse toksRelop ≠ some (ParseOutcome.tree t) := by
  refine ⟨rfl, rfl, rfl, rfl, rfl, rfl, ?_⟩
  intro t h
  rw [show parse toksRelop = some (ParseOutcome.unexpectedToken ">" 9) from rfl] at h
  injection h with h
  exact ParseOutcome.noConfusion h

/-- Claim C10: keyword matching precedes maximal-munch scanning: whenever the
remaining text starts with `while` (or `done`), `tokenize` emits the keyword
token and continues right after it, even when alphanumeric characters follow;
in particular `"whileX"` is `WHILE` then `RomanNumeral X`, not one
identifier. -/
theorem claim_C10 :
    (∀ rest : List Char, tokenize ('w' :: 'h' :: 'i' :: 'l' :: 'e' :: rest) =
        consTok ⟨.WHILE, "while"⟩ (tokenize rest)) ∧
    (∀ rest : List Char, tokenize ('d' :: 'o' :: 'n' :: 'e' :: rest) =
        consTok ⟨.DONE, "done"⟩ (tokenize rest)) ∧
    tokenize ("whileX".data) =
      .ok [⟨.WHILE, "while"⟩, ⟨.ROMAN_NUMERAL, "X"⟩, ⟨.END, ""⟩] := by
  refine ⟨?_, ?_, rfl⟩
  · intro rest
    exact tokenize_emit rfl
  · intro rest
    exact tokenize_emit rfl
